import Mathlib

/-!
Verification development for the Ham-Digital training pipeline
(`HamTextClassifierTraining/train_model.py` and
`HamTextClassifierTraining/generate_data.py`).

Texts are modelled as `List Char` (one entry per Unicode code point, as in a
Python `str`).  The Python character-class predicates (`str.isalpha`,
`str.isdigit`, `str.isupper`, `str.upper`, whitespace for `str.split`) are
modelled on their ASCII fragment; every theorem below that quantifies over all
strings uses these predicates only through the embedded definitions, and the
proved bounds hold for any choice of predicate.  Feature values are modelled
as exact reals (`ℝ`); Python `float` arithmetic on these quantities is
correctly-rounded division and comparison, which does not change any of the
stated facts.
-/

/-- ASCII fragment of Python `str.isalpha`: `A`-`Z` (65-90) or `a`-`z` (97-122). -/
def pyIsAlpha (c : Char) : Bool :=
  (65 ≤ c.toNat && c.toNat ≤ 90) || (97 ≤ c.toNat && c.toNat ≤ 122)

/-- ASCII fragment of Python `str.isdigit`: `0`-`9` (48-57). -/
def pyIsDigit (c : Char) : Bool :=
  48 ≤ c.toNat && c.toNat ≤ 57

/-- ASCII fragment of Python `str.isupper` on a single character: `A`-`Z`. -/
def pyIsUpper (c : Char) : Bool :=
  65 ≤ c.toNat && c.toNat ≤ 90

/-- ASCII fragment of the whitespace set used by Python `str.split()`:
space (32), tab through carriage return (9-13: `\t`, `\n`, `\v`, `\f`,
`\r`), and the file/group/record/unit separators (28-31: `\x1c`-`\x1f`). -/
def pyIsSpaceChar (c : Char) : Bool :=
  c.toNat = 32 || (9 ≤ c.toNat && c.toNat ≤ 13) || (28 ≤ c.toNat && c.toNat ≤ 31)

/-- ASCII fragment of Python `str.upper` applied per character. -/
def pyToUpper (c : Char) : Char :=
  if 97 ≤ c.toNat && c.toNat ≤ 122 then Char.ofNat (c.toNat - 32) else c

/-- Python `str.isalnum` (ASCII fragment): alphabetic or digit. -/
def pyIsAlnum (c : Char) : Bool :=
  pyIsAlpha c || pyIsDigit c

/-- Python regex word character `\w` (ASCII fragment): alphanumeric or `_` (95). -/
def pyIsWordChar (c : Char) : Bool :=
  pyIsAlnum c || c.toNat = 95

/-- Membership in the literal string `"AEIOU"` (train_model.py line 107). -/
def isVowelChar (c : Char) : Bool :=
  c == 'A' || c == 'E' || c == 'I' || c == 'O' || c == 'U'

/-! ### Python `dict[str, float]`, modelled as an insertion-ordered
association list, mirroring CPython semantics: assigning to an existing key
updates the value in place, assigning to a fresh key appends at the end. -/

/-- Lookup in a feature map (`features[k]` / `k in features`). -/
def dget (m : List (String × ℝ)) (k : String) : Option ℝ :=
  match m with
  | [] => none
  | (k₀, v) :: rest => if k₀ = k then some v else dget rest k

/-- `features.get(k, d)` — lookup with default. -/
def dgetD (m : List (String × ℝ)) (k : String) (d : ℝ) : ℝ :=
  (dget m k).getD d

/-- `features[k] = v` — insert or update. -/
def dset (m : List (String × ℝ)) (k : String) (v : ℝ) : List (String × ℝ) :=
  match m with
  | [] => [(k, v)]
  | (k₀, v₀) :: rest => if k₀ = k then (k₀, v) :: rest else (k₀, v₀) :: dset rest k v

/-! ### `shannon_entropy` (train_model.py lines 32-45) -/

/-- One step of building the character-frequency dict `freq`
(`freq[ch] = freq.get(ch, 0) + 1`). -/
def bump (m : List (Char × ℕ)) (c : Char) : List (Char × ℕ) :=
  match m with
  | [] => [(c, 1)]
  | (c₀, n) :: rest => if c₀ = c then (c₀, n + 1) :: rest else (c₀, n) :: bump rest c

/-- The insertion-ordered character-frequency dict of `shannon_entropy`. -/
def charCounts (text : List Char) : List (Char × ℕ) :=
  text.foldl bump []

/-- `shannon_entropy(text)`: 0 for the empty string, otherwise
`-Σ p·log2(p)` over the character frequency distribution, with the
(always-true) `if p > 0` guard of the source kept in place. -/
noncomputable def shannon_entropy (text : List Char) : ℝ :=
  if text.length = 0 then 0
  else
    -((charCounts text).map (fun kc =>
        let p : ℝ := (kc.2 : ℝ) / (text.length : ℝ)
        if 0 < p then p * Real.logb 2 p else 0)).sum

/-! ### `text.split()` (train_model.py line 95): split on runs of whitespace,
dropping empty tokens. -/

theorem length_dropWhile_le (p : Char → Bool) :
    ∀ l : List Char, (l.dropWhile p).length ≤ l.length := by
  intro l
  induction l with
  | nil => simp
  | cons c r ih =>
    rw [List.dropWhile_cons]
    split
    · exact Nat.le_succ_of_le ih
    · exact Nat.le_refl _

def pySplit (l : List Char) : List (List Char) :=
  match l with
  | [] => []
  | c :: rest =>
    if pyIsSpaceChar c then pySplit rest
    else (c :: rest.takeWhile (fun x => !pyIsSpaceChar x)) ::
      pySplit (rest.dropWhile (fun x => !pyIsSpaceChar x))
termination_by l.length
decreasing_by
  · simp
  · simp only [List.length_cons]
    have := length_dropWhile_le (fun x => !pyIsSpaceChar x) rest
    omega

/-! ### Character bigrams and trigrams (train_model.py lines 78-92) -/

/-- The window condition: every character alphanumeric or a literal space. -/
def ngramOk (w : List Char) : Bool :=
  w.all (fun c => pyIsAlnum c || c == ' ')

/-- The dict key `f"bi_{bigram}"`. -/
def biKey (w : List Char) : String :=
  ⟨'b' :: 'i' :: '_' :: w⟩

/-- The dict key `f"tri_{trigram}"`. -/
def triKey (w : List Char) : String :=
  ⟨'t' :: 'r' :: 'i' :: '_' :: w⟩

/-- `for i in range(len(upper_text) - 1): ...` — count qualifying bigrams. -/
def addBigrams (u : List Char) (m : List (String × ℝ)) : List (String × ℝ) :=
  (List.range (u.length - 1)).foldl
    (fun acc i =>
      let w := (u.drop i).take 2
      if ngramOk w then dset acc (biKey w) (dgetD acc (biKey w) 0 + 1) else acc) m

/-- `for i in range(len(upper_text) - 2): ...` — count qualifying trigrams. -/
def addTrigrams (u : List Char) (m : List (String × ℝ)) : List (String × ℝ) :=
  (List.range (u.length - 2)).foldl
    (fun acc i =>
      let w := (u.drop i).take 3
      if ngramOk w then dset acc (triKey w) (dgetD acc (triKey w) 0 + 1) else acc) m

/-! ### The eight pattern regexes (train_model.py lines 22-29), modelled as
explicit window searches.  `re.search` succeeds iff some start position
admits a match; the greedy/backtracking order of the engine does not affect
existence, so each matcher is the disjunction over the pattern's shapes. -/

/-- Character at index `i` satisfies `p` (false when out of range). -/
def charSat (t : List Char) (i : ℕ) (p : Char → Bool) : Bool :=
  match t[i]? with
  | some c => p c
  | none => false

/-- Character at index `i` has code point in `[lo, hi]`. -/
def charIn (t : List Char) (i lo hi : ℕ) : Bool :=
  charSat t i (fun c => lo ≤ c.toNat && c.toNat ≤ hi)

/-- `\b` after the last character of a match ending at index `i` (exclusive):
true at end of text or when `t[i]` is a non-word character. -/
def nonWordAfter (t : List Char) (i : ℕ) : Bool :=
  match t[i]? with
  | some c => !pyIsWordChar c
  | none => true

/-- `\b` before a match starting at index `i` whose first character is a word
character: true at the start of text or when the previous character is
non-word. -/
def boundaryBefore (t : List Char) (i : ℕ) : Bool :=
  match i with
  | 0 => true
  | j + 1 =>
    match t[j]? with
    | some c => !pyIsWordChar c
    | none => true

/-- `RST_RE = \b[1-5][1-9][1-9]?\b` matching at start index `i`
(`'1'` = 49, `'5'` = 53, `'9'` = 57). -/
def rstMatchAt (t : List Char) (i : ℕ) : Bool :=
  boundaryBefore t i && charIn t i 49 53 && charIn t (i + 1) 49 57 &&
    ((charIn t (i + 2) 49 57 && nonWordAfter t (i + 3)) || nonWordAfter t (i + 2))

/-- `RST_RE.search(text)` succeeds. -/
def has_rst (t : List Char) : Bool :=
  (List.range t.length).any (rstMatchAt t)

/-- `n` consecutive uppercase letters starting at index `i`. -/
def lettersAt (t : List Char) (i n : ℕ) : Bool :=
  ((t.drop i).take n).length = n && ((t.drop i).take n).all pyIsUpper

/-- `CALLSIGN_RE = [A-Z]{1,2}[0-9][A-Z]{1,3}` matching at start index `i`
(no word-boundary anchors; applied to the uppercased text). -/
def callsignMatchAt (u : List Char) (i : ℕ) : Bool :=
  ([1, 2] : List ℕ).any fun a =>
    lettersAt u i a && charIn u (i + a) 48 57 &&
      (([1, 2, 3] : List ℕ).any fun b => lettersAt u (i + a + 1) b)

/-- `CALLSIGN_RE.search(upper_text)` succeeds. -/
def has_callsign (u : List Char) : Bool :=
  (List.range u.length).any (callsignMatchAt u)

/-- `[A-R]` under `re.IGNORECASE`: codes 65-82 or 97-114. -/
def gridLetter1 (c : Char) : Bool :=
  (65 ≤ c.toNat && c.toNat ≤ 82) || (97 ≤ c.toNat && c.toNat ≤ 114)

/-- `[a-x]` under `re.IGNORECASE`: codes 97-120 or 65-88. -/
def gridLetter2 (c : Char) : Bool :=
  (97 ≤ c.toNat && c.toNat ≤ 120) || (65 ≤ c.toNat && c.toNat ≤ 88)

/-- `GRID_RE = \b[A-R]{2}[0-9]{2}(?:[a-x]{2})?\b` (IGNORECASE) at index `i`. -/
def gridMatchAt (t : List Char) (i : ℕ) : Bool :=
  boundaryBefore t i && charSat t i gridLetter1 && charSat t (i + 1) gridLetter1 &&
    charIn t (i + 2) 48 57 && charIn t (i + 3) 48 57 &&
    ((charSat t (i + 4) gridLetter2 && charSat t (i + 5) gridLetter2 &&
        nonWordAfter t (i + 6)) ||
      nonWordAfter t (i + 4))

/-- `GRID_RE.search(text)` succeeds. -/
def has_grid (t : List Char) : Bool :=
  (List.range t.length).any (gridMatchAt t)

/-- `CQ_RE = \bCQ\b` (IGNORECASE) at index `i`. -/
def cqMatchAt (t : List Char) (i : ℕ) : Bool :=
  boundaryBefore t i && charSat t i (fun c => c == 'C' || c == 'c') &&
    charSat t (i + 1) (fun c => c == 'Q' || c == 'q') && nonWordAfter t (i + 2)

/-- `CQ_RE.search(text)` succeeds. -/
def has_cq (t : List Char) : Bool :=
  (List.range t.length).any (cqMatchAt t)

/-- `DE_RE = \bDE\b` (IGNORECASE) at index `i`. -/
def deMatchAt (t : List Char) (i : ℕ) : Bool :=
  boundaryBefore t i && charSat t i (fun c => c == 'D' || c == 'd') &&
    charSat t (i + 1) (fun c => c == 'E' || c == 'e') && nonWordAfter t (i + 2)

/-- `DE_RE.search(text)` succeeds. -/
def has_de (t : List Char) : Bool :=
  (List.range t.length).any (deMatchAt t)

/-- `SEVENTY_THREE_RE = \b73\b` at index `i`. -/
def seventyThreeMatchAt (t : List Char) (i : ℕ) : Bool :=
  boundaryBefore t i && charSat t i (fun c => c == '7') &&
    charSat t (i + 1) (fun c => c == '3') && nonWordAfter t (i + 2)

/-- `SEVENTY_THREE_RE.search(text)` succeeds. -/
def has_73 (t : List Char) : Bool :=
  (List.range t.length).any (seventyThreeMatchAt t)

/-- `DB_REPORT_RE = [+-]\d{2}\b` at index `i` (no left anchor). -/
def dbReportMatchAt (t : List Char) (i : ℕ) : Bool :=
  charSat t i (fun c => c == '+' || c == '-') && charIn t (i + 1) 48 57 &&
    charIn t (i + 2) 48 57 && nonWordAfter t (i + 3)

/-- `DB_REPORT_RE.search(text)` succeeds. -/
def has_db_report (t : List Char) : Bool :=
  (List.range t.length).any (dbReportMatchAt t)

/-- `RRR_RE = \bR(?:RR|R73)\b` at index `i` (case-sensitive). -/
def rrrMatchAt (t : List Char) (i : ℕ) : Bool :=
  boundaryBefore t i && charSat t i (fun c => c == 'R') &&
    ((charSat t (i + 1) (fun c => c == 'R') && charSat t (i + 2) (fun c => c == 'R') &&
        nonWordAfter t (i + 3)) ||
      (charSat t (i + 1) (fun c => c == 'R') && charSat t (i + 2) (fun c => c == '7') &&
        charSat t (i + 3) (fun c => c == '3') && nonWordAfter t (i + 4)))

/-- `RRR_RE.search(text)` succeeds. -/
def has_rrr (t : List Char) : Bool :=
  (List.range t.length).any (rrrMatchAt t)

/-! ### `extract_features` (train_model.py lines 48-127) -/

noncomputable def extract_features (text : List Char) : List (String × ℝ) :=
  let length := text.length
  if length = 0 then
    dset (dset (dset (dset (dset (dset (dset [] "len" 0) "alpha_ratio" 0)
      "digit_ratio" 0) "space_ratio" 0) "upper_ratio" 0) "special_ratio" 0)
      "entropy" 0
  else
    let alpha_count := text.countP pyIsAlpha
    let digit_count := text.countP pyIsDigit
    let space_count := text.countP (fun c => c == ' ')
    let upper_count := text.countP pyIsUpper
    -- Python int arithmetic: the subtraction lives in ℤ.
    let special_count : ℤ :=
      (length : ℤ) - (alpha_count : ℤ) - (digit_count : ℤ) - (space_count : ℤ)
    let m := dset [] "len" (min ((length : ℝ) / 200) 1)
    let m := dset m "alpha_ratio" ((alpha_count : ℝ) / (length : ℝ))
    let m := dset m "digit_ratio" ((digit_count : ℝ) / (length : ℝ))
    let m := dset m "space_ratio" ((space_count : ℝ) / (length : ℝ))
    let m := dset m "upper_ratio"
      (if 0 < alpha_count then (upper_count : ℝ) / (length : ℝ) else 0)
    let m := dset m "special_ratio" ((special_count : ℝ) / (length : ℝ))
    let m := dset m "entropy" (shannon_entropy text / 8)
    let upper_text := text.map pyToUpper
    let m := addBigrams upper_text m
    let m := addTrigrams upper_text m
    let words := pySplit text
    let m :=
      if words = [] then
        -- `else` branch of `if words:` (lines 101-104)
        dset (dset (dset m "max_word_len" (min ((length : ℝ) / 20) 1))
          "avg_word_len" (min ((length : ℝ) / 10) 1)) "word_count" 0
      else
        let word_lens := words.map List.length
        dset (dset (dset m "max_word_len"
              (min (((word_lens.foldl Nat.max 0 : ℕ) : ℝ) / 20) 1))
            "avg_word_len"
            (min ((word_lens.sum : ℝ) / (word_lens.length : ℝ) / 10) 1))
          "word_count" (min ((words.length : ℝ) / 20) 1)
    let vowels := (text.map pyToUpper).countP isVowelChar
    let m := dset m "vowel_ratio"
      (if 0 < alpha_count then (vowels : ℝ) / (alpha_count : ℝ) else 0)
    let m :=
      if 1 < length then
        dset m "repeated_pair_ratio"
          (((text.zip text.tail).countP (fun p => p.1 == p.2) : ℝ) /
            ((length : ℝ) - 1))
      else dset m "repeated_pair_ratio" 0
    let m := dset m "has_callsign" (if has_callsign upper_text then 1 else 0)
    let m := dset m "has_rst" (if has_rst text then 1 else 0)
    let m := dset m "has_grid" (if has_grid text then 1 else 0)
    let m := dset m "has_cq" (if has_cq text then 1 else 0)
    let m := dset m "has_de" (if has_de text then 1 else 0)
    let m := dset m "has_73" (if has_73 text then 1 else 0)
    let m := dset m "has_db_report" (if has_db_report text then 1 else 0)
    dset m "has_rrr" (if has_rrr text then 1 else 0)

/-! ### `generate_dataset` (generate_data.py lines 600-645), with the
per-sample text producers and the seeded shuffle abstracted: the claims
settled here are about sample counts, labels and the split, which do not
depend on the text payloads. -/

/-- The sample list built by the five generation loops (lines 605-623):
12000 RTTY, 12000 PSK31, 16000 FT8, 10000 rattlegram (label 1), then
50000 garbage (label 0). -/
def mk_samples {α : Type} (rtty psk ft8 rattle garbage : ℕ → α) : List (α × ℕ) :=
  ((List.range 12000).map fun i => (rtty i, 1)) ++
    ((List.range 12000).map fun i => (psk i, 1)) ++
    ((List.range 16000).map fun i => (ft8 i, 1)) ++
    ((List.range 10000).map fun i => (rattle i, 1)) ++
    ((List.range 50000).map fun i => (garbage i, 0))

/-- Lines 625-629: one `random.shuffle` over the combined list, then
`split = int(len(samples) * TRAIN_RATIO)` and an in-order slice.
`int(100000 * 0.8)` evaluates to exactly 80000 under IEEE-754 doubles
(the product rounds to 80000.0), which `samples.length * 8 / 10` reproduces. -/
def generate_dataset {α : Type} (rtty psk ft8 rattle garbage : ℕ → α)
    (shuffle : List (α × ℕ) → List (α × ℕ)) :
    List (α × ℕ) × List (α × ℕ) :=
  let samples := mk_samples rtty psk ft8 rattle garbage
  let shuffled := shuffle samples
  let split := samples.length * 8 / 10
  (shuffled.take split, shuffled.drop split)

/-- Line 639: `text.replace("\n", " ").replace("\r", " ")` — both patterns
are single characters, so each `replace` is a per-character map. -/
def clean_text (l : List Char) : List Char :=
  (l.map fun c => if c = '\n' then ' ' else c).map fun c => if c = '\r' then ' ' else c

/-- Lines 637-640: the rows actually written to `train.csv` / `test.csv`
(text cleaned, label unchanged). -/
def persist_rows (rows : List (List Char × ℕ)) : List (List Char × ℕ) :=
  rows.map fun r => (clean_text r.1, r.2)

/-! ### The accuracy quality gate (train_model.py lines 155-162 and 301-303).
Accuracies are ratios `correct / 20000`, modelled in ℚ; the Python `float`
comparison against the literal `0.95` gives the same verdict as the exact
rational comparison for every such ratio (both sides round to nearest, and
`19000 / 20000` rounds to the same double as `0.95`). -/

/-- Line 161: the in-`train()` gate only prints a warning; it does not abort. -/
def quality_gate_warns (accuracy : ℚ) : Bool :=
  accuracy < 95 / 100

/-- Lines 301-303: `acc = train(); sys.exit(0 if acc >= 0.95 else 1)`.
`train()` returns the measured accuracy unconditionally (line 298), so the
entry point sees it whether or not the gate warned. -/
def run_main (accuracy : ℚ) : ℚ × ℕ :=
  (accuracy, if 95 / 100 ≤ accuracy then 0 else 1)

/-! ### Association-list lemmas -/

theorem dget_dset (m : List (String × ℝ)) (k₀ k : String) (v : ℝ) :
    dget (dset m k₀ v) k = if k₀ = k then some v else dget m k := by
  induction m with
  | nil => simp [dget, dset]
  | cons p rest ih =>
    obtain ⟨k₁, v₁⟩ := p
    simp only [dset]
    by_cases h₁ : k₁ = k₀
    · subst h₁
      by_cases h₂ : k₁ = k <;> simp [dget, h₂]
    · simp only [if_neg h₁, dget]
      by_cases h₂ : k₁ = k
      · have h₃ : ¬ k₀ = k := fun e => h₁ (h₂.trans e.symm)
        simp [h₂, h₃]
      · simp [h₂, ih]

theorem dget_ite (c : Prop) [Decidable c] (m₁ m₂ : List (String × ℝ)) (k : String) :
    dget (if c then m₁ else m₂) k = if c then dget m₁ k else dget m₂ k :=
  apply_ite (fun m => dget m k) c m₁ m₂

theorem dget_foldl_preserve {β : Type} (f : List (String × ℝ) → β → List (String × ℝ))
    (l : List β) (m : List (String × ℝ)) (k : String)
    (h : ∀ acc b, dget (f acc b) k = dget acc k) :
    dget (l.foldl f m) k = dget m k := by
  induction l generalizing m with
  | nil => rfl
  | cons b l ih => rw [List.foldl_cons, ih, h]

theorem biKey_data (w : List Char) : (biKey w).data = 'b' :: 'i' :: '_' :: w := rfl

theorem triKey_data (w : List Char) : (triKey w).data = 't' :: 'r' :: 'i' :: '_' :: w := rfl

theorem dget_addBigrams (u : List Char) (m : List (String × ℝ)) (k : String)
    (h : k.data.head? ≠ some 'b') :
    dget (addBigrams u m) k = dget m k := by
  unfold addBigrams
  apply dget_foldl_preserve
  intro acc i
  dsimp only
  split
  · rw [dget_dset, if_neg]
    intro e
    exact h (by rw [← e]; rfl)
  · rfl

theorem dget_addTrigrams (u : List Char) (m : List (String × ℝ)) (k : String)
    (h : k.data.head? ≠ some 't') :
    dget (addTrigrams u m) k = dget m k := by
  unfold addTrigrams
  apply dget_foldl_preserve
  intro acc i
  dsimp only
  split
  · rw [dget_dset, if_neg]
    intro e
    exact h (by rw [← e]; rfl)
  · rfl

/-! ### Lookup characterizations for `extract_features` on non-empty input -/

theorem dget_extract_len (l : List Char) (h : l ≠ []) :
    dget (extract_features l) "len" = some (min ((l.length : ℝ) / 200) 1) := by
  have hlen : ¬ l.length = 0 := by simpa using h
  simp only [extract_features]
  rw [if_neg hlen]
  simp only [dget_dset, dget_ite, String.reduceEq, reduceIte, ite_self]
  rw [dget_addTrigrams _ _ _ (by decide), dget_addBigrams _ _ _ (by decide)]
  simp only [dget_dset, String.reduceEq, reduceIte]

theorem dget_extract_alpha (l : List Char) (h : l ≠ []) :
    dget (extract_features l) "alpha_ratio" =
      some ((l.countP pyIsAlpha : ℝ) / (l.length : ℝ)) := by
  have hlen : ¬ l.length = 0 := by simpa using h
  simp only [extract_features]
  rw [if_neg hlen]
  simp only [dget_dset, dget_ite, String.reduceEq, reduceIte, ite_self]
  rw [dget_addTrigrams _ _ _ (by decide), dget_addBigrams _ _ _ (by decide)]
  simp only [dget_dset, String.reduceEq, reduceIte]

theorem dget_extract_digit (l : List Char) (h : l ≠ []) :
    dget (extract_features l) "digit_ratio" =
      some ((l.countP pyIsDigit : ℝ) / (l.length : ℝ)) := by
  have hlen : ¬ l.length = 0 := by simpa using h
  simp only [extract_features]
  rw [if_neg hlen]
  simp only [dget_dset, dget_ite, String.reduceEq, reduceIte, ite_self]
  rw [dget_addTrigrams _ _ _ (by decide), dget_addBigrams _ _ _ (by decide)]
  simp only [dget_dset, String.reduceEq, reduceIte]

theorem dget_extract_space (l : List Char) (h : l ≠ []) :
    dget (extract_features l) "space_ratio" =
      some ((l.countP (fun c => c == ' ') : ℝ) / (l.length : ℝ)) := by
  have hlen : ¬ l.length = 0 := by simpa using h
  simp only [extract_features]
  rw [if_neg hlen]
  simp only [dget_dset, dget_ite, String.reduceEq, reduceIte, ite_self]
  rw [dget_addTrigrams _ _ _ (by decide), dget_addBigrams _ _ _ (by decide)]
  simp only [dget_dset, String.reduceEq, reduceIte]

theorem dget_extract_upper (l : List Char) (h : l ≠ []) :
    dget (extract_features l) "upper_ratio" =
      some (if 0 < l.countP pyIsAlpha then (l.countP pyIsUpper : ℝ) / (l.length : ℝ)
        else 0) := by
  have hlen : ¬ l.length = 0 := by simpa using h
  simp only [extract_features]
  rw [if_neg hlen]
  simp only [dget_dset, dget_ite, String.reduceEq, reduceIte, ite_self]
  rw [dget_addTrigrams _ _ _ (by decide), dget_addBigrams _ _ _ (by decide)]
  simp only [dget_dset, String.reduceEq, reduceIte]

theorem dget_extract_special (l : List Char) (h : l ≠ []) :
    dget (extract_features l) "special_ratio" =
      some ((((l.length : ℤ) - (l.countP pyIsAlpha : ℤ) - (l.countP pyIsDigit : ℤ) -
          (l.countP (fun c => c == ' ') : ℤ) : ℤ) : ℝ) / (l.length : ℝ)) := by
  have hlen : ¬ l.length = 0 := by simpa using h
  simp only [extract_features]
  rw [if_neg hlen]
  simp only [dget_dset, dget_ite, String.reduceEq, reduceIte, ite_self]
  rw [dget_addTrigrams _ _ _ (by decide), dget_addBigrams _ _ _ (by decide)]
  simp only [dget_dset, String.reduceEq, reduceIte]

theorem dget_extract_entropy (l : List Char) (h : l ≠ []) :
    dget (extract_features l) "entropy" = some (shannon_entropy l / 8) := by
  have hlen : ¬ l.length = 0 := by simpa using h
  simp only [extract_features]
  rw [if_neg hlen]
  simp only [dget_dset, dget_ite, String.reduceEq, reduceIte, ite_self]
  rw [dget_addTrigrams _ _ _ (by decide), dget_addBigrams _ _ _ (by decide)]
  simp only [dget_dset, String.reduceEq, reduceIte]

theorem dget_extract_max_word (l : List Char) (h : l ≠ []) :
    dget (extract_features l) "max_word_len" =
      if pySplit l = [] then some (min ((l.length : ℝ) / 20) 1)
      else some (min (((((pySplit l).map List.length).foldl Nat.max 0 : ℕ) : ℝ) / 20) 1) := by
  have hlen : ¬ l.length = 0 := by simpa using h
  simp only [extract_features]
  rw [if_neg hlen]
  simp only [dget_dset, dget_ite, String.reduceEq, reduceIte, ite_self]

theorem dget_extract_avg_word (l : List Char) (h : l ≠ []) :
    dget (extract_features l) "avg_word_len" =
      if pySplit l = [] then some (min ((l.length : ℝ) / 10) 1)
      else some (min ((((pySplit l).map List.length).sum : ℝ) /
        ((((pySplit l).map List.length).length : ℕ) : ℝ) / 10) 1) := by
  have hlen : ¬ l.length = 0 := by simpa using h
  simp only [extract_features]
  rw [if_neg hlen]
  simp only [dget_dset, dget_ite, String.reduceEq, reduceIte, ite_self]

theorem dget_extract_word_count (l : List Char) (h : l ≠ []) :
    dget (extract_features l) "word_count" =
      if pySplit l = [] then some 0
      else some (min (((pySplit l).length : ℝ) / 20) 1) := by
  have hlen : ¬ l.length = 0 := by simpa using h
  simp only [extract_features]
  rw [if_neg hlen]
  simp only [dget_dset, dget_ite, String.reduceEq, reduceIte, ite_self]

theorem dget_extract_vowel (l : List Char) (h : l ≠ []) :
    dget (extract_features l) "vowel_ratio" =
      some (if 0 < l.countP pyIsAlpha then
        ((l.map pyToUpper).countP isVowelChar : ℝ) / (l.countP pyIsAlpha : ℝ)
      else 0) := by
  have hlen : ¬ l.length = 0 := by simpa using h
  simp only [extract_features]
  rw [if_neg hlen]
  simp only [dget_dset, dget_ite, String.reduceEq, reduceIte, ite_self]

theorem dget_extract_repeated (l : List Char) (h : l ≠ []) :
    dget (extract_features l) "repeated_pair_ratio" =
      if 1 < l.length then
        some (((l.zip l.tail).countP (fun p => p.1 == p.2) : ℝ) / ((l.length : ℝ) - 1))
      else some 0 := by
  have hlen : ¬ l.length = 0 := by simpa using h
  simp only [extract_features]
  rw [if_neg hlen]
  simp only [dget_dset, dget_ite, String.reduceEq, reduceIte, ite_self]

theorem dget_extract_has_rst (l : List Char) (h : l ≠ []) :
    dget (extract_features l) "has_rst" = some (if has_rst l then 1 else 0) := by
  have hlen : ¬ l.length = 0 := by simpa using h
  simp only [extract_features]
  rw [if_neg hlen]
  simp only [dget_dset, dget_ite, String.reduceEq, reduceIte, ite_self]

/-- `pySplit` of an all-whitespace string is the empty word list
(Python `"   ".split() == []`). -/
theorem pySplit_eq_nil (l : List Char) (h : ∀ c ∈ l, pyIsSpaceChar c = true) :
    pySplit l = [] := by
  induction l with
  | nil => rw [pySplit]
  | cons c rest ih =>
    rw [pySplit, if_pos (h c (by simp))]
    exact ih fun x hx => h x (by simp [hx])

/-- Claim C1: feature extraction is deterministic and depends only on the
input string — `extract_features` is a pure function of the text (its type
takes no label and no state), so equal inputs give identical FeatureMaps. -/
theorem extract_features_deterministic (s t : List Char) (h : s = t) :
    extract_features s = extract_features t ∧
      ∀ k : String, dget (extract_features s) k = dget (extract_features t) k := by
  subst h
  exact ⟨rfl, fun _ => rfl⟩

theorem extract_features_deterministic_witness :
    extract_features ['C', 'Q'] = extract_features ['C', 'Q'] :=
  (extract_features_deterministic ['C', 'Q'] ['C', 'Q'] rfl).1

/-- Shared computation: the FeatureMap of the empty string. -/
theorem extract_features_nil :
    extract_features [] =
      [("len", 0), ("alpha_ratio", 0), ("digit_ratio", 0), ("space_ratio", 0),
        ("upper_ratio", 0), ("special_ratio", 0), ("entropy", 0)] := by
  simp [extract_features, dset]

/-- Claim C2: on the empty string, `extract_features` returns exactly the
seven scalar keys `len`, `alpha_ratio`, `digit_ratio`, `space_ratio`,
`upper_ratio`, `special_ratio`, `entropy`, in insertion order, each with
value 0.0, and no other keys. -/
theorem extract_features_empty :
    extract_features [] =
      [("len", 0), ("alpha_ratio", 0), ("digit_ratio", 0), ("space_ratio", 0),
        ("upper_ratio", 0), ("special_ratio", 0), ("entropy", 0)] :=
  extract_features_nil

/-- Claim C8: `upper_ratio` and `vowel_ratio` are 0 when the text has no
alphabetic character; otherwise `upper_ratio` is the uppercase count over the
total length and `vowel_ratio` is the count of `AEIOU` in the uppercased text
over the alphabetic count. -/
theorem extract_upper_vowel_spec (l : List Char) (h : l ≠ []) :
    (l.countP pyIsAlpha = 0 →
      dget (extract_features l) "upper_ratio" = some 0 ∧
      dget (extract_features l) "vowel_ratio" = some 0) ∧
    (0 < l.countP pyIsAlpha →
      dget (extract_features l) "upper_ratio" =
        some ((l.countP pyIsUpper : ℝ) / (l.length : ℝ)) ∧
      dget (extract_features l) "vowel_ratio" =
        some (((l.map pyToUpper).countP isVowelChar : ℝ) / (l.countP pyIsAlpha : ℝ))) := by
  constructor
  · intro ha
    constructor
    · rw [dget_extract_upper l h, if_neg (by omega)]
    · rw [dget_extract_vowel l h, if_neg (by omega)]
  · intro ha
    constructor
    · rw [dget_extract_upper l h, if_pos ha]
    · rw [dget_extract_vowel l h, if_pos ha]

theorem extract_upper_vowel_spec_witness :
    dget (extract_features ['.']) "upper_ratio" = some 0 :=
  ((extract_upper_vowel_spec ['.'] (by decide)).1 (by decide)).1

/-- Claim C9: on a non-empty all-whitespace string the word list is empty and
the fallbacks apply: `max_word_len = min(length/20, 1)`,
`avg_word_len = min(length/10, 1)`, `word_count = 0`, with `length` the
character count of the whole input. -/
theorem extract_whitespace_fallback (l : List Char) (h : l ≠ [])
    (hsp : ∀ c ∈ l, pyIsSpaceChar c = true) :
    dget (extract_features l) "max_word_len" = some (min ((l.length : ℝ) / 20) 1) ∧
    dget (extract_features l) "avg_word_len" = some (min ((l.length : ℝ) / 10) 1) ∧
    dget (extract_features l) "word_count" = some 0 := by
  have hw := pySplit_eq_nil l hsp
  refine ⟨?_, ?_, ?_⟩
  · rw [dget_extract_max_word l h, if_pos hw]
  · rw [dget_extract_avg_word l h, if_pos hw]
  · rw [dget_extract_word_count l h, if_pos hw]

theorem extract_whitespace_fallback_witness :
    dget (extract_features [' ', ' ', ' ']) "word_count" = some 0 :=
  (extract_whitespace_fallback [' ', ' ', ' '] (by decide) (by decide)).2.2

/-- Claim C10: for every non-empty string the four class ratios sum to 1
exactly, because `special_count = length - alpha - digit - space` makes the
four classes partition the length. -/
theorem class_ratios_sum_to_one (l : List Char) (h : l ≠ []) :
    dgetD (extract_features l) "alpha_ratio" 0 + dgetD (extract_features l) "digit_ratio" 0 +
      dgetD (extract_features l) "space_ratio" 0 +
      dgetD (extract_features l) "special_ratio" 0 = 1 := by
  have hL : (l.length : ℝ) ≠ 0 := by
    have h0 : l.length ≠ 0 := by simpa using h
    exact_mod_cast h0
  rw [dgetD, dgetD, dgetD, dgetD, dget_extract_alpha l h, dget_extract_digit l h,
    dget_extract_space l h, dget_extract_special l h]
  simp only [Option.getD_some]
  push_cast
  field_simp

theorem class_ratios_sum_to_one_witness :
    dgetD (extract_features ['A']) "alpha_ratio" 0 +
      dgetD (extract_features ['A']) "digit_ratio" 0 +
      dgetD (extract_features ['A']) "space_ratio" 0 +
      dgetD (extract_features ['A']) "special_ratio" 0 = 1 :=
  class_ratios_sum_to_one ['A'] (by decide)

/-! ### Claim C5: the RST pattern -/

/-- The RST pattern as the specification claim words it: first digit in 1-5,
second in 1-9, optional third digit in the class `[1|7-9]` (i.e. 1 or 7-9),
as a whole word.  Defined from the claim's words, to be compared against the
code's `RST_RE`. -/
def rstClaimMatchAt (t : List Char) (i : ℕ) : Bool :=
  boundaryBefore t i && charIn t i 49 53 && charIn t (i + 1) 49 57 &&
    ((charSat t (i + 2) (fun c => c.toNat = 49 || (55 ≤ c.toNat && c.toNat ≤ 57)) &&
        nonWordAfter t (i + 3)) ||
      nonWordAfter t (i + 2))

/-- Search for the claim-worded RST pattern anywhere in the text. -/
def rstClaimPattern (t : List Char) : Bool :=
  (List.range t.length).any (rstClaimMatchAt t)

/-- Counterexample to claim C5 as stated: on `"123"` the code sets
`has_rst = 1.0` (the third digit class of `RST_RE` is `[1-9]`, and 3 ∈ 1-9),
but the claim's pattern (third digit restricted to `[1|7-9]`) does not match
anywhere in `"123"`. -/
theorem has_rst_claim_counterexample :
    dget (extract_features ['1', '2', '3']) "has_rst" = some 1 ∧
      rstClaimPattern ['1', '2', '3'] = false := by
  constructor
  · rw [dget_extract_has_rst _ (by decide), if_pos (by decide)]
  · decide

/-- Claim C5 (amended): for every non-empty string, `has_rst` is 1.0 exactly
when the literal text contains, as a whole word, a digit sequence whose first
digit is in 1-5, second in 1-9, and whose optional third digit is in 1-9 —
the language of `RST_RE = \b[1-5][1-9][1-9]?\b`. -/
theorem has_rst_characterization (l : List Char) (h : l ≠ []) :
    dget (extract_features l) "has_rst" = some 1 ↔
      ∃ i < l.length, rstMatchAt l i = true := by
  have hiff : has_rst l = true ↔ ∃ i < l.length, rstMatchAt l i = true := by
    simp [has_rst, List.any_eq_true, List.mem_range]
  rw [dget_extract_has_rst l h]
  by_cases hr : has_rst l = true
  · simp [hr, hiff.mp hr]
  · have hne : ¬ ∃ i < l.length, rstMatchAt l i = true := fun he => hr (hiff.mpr he)
    simp [hr, hne]

theorem has_rst_characterization_witness :
    dget (extract_features ['5', '9', '9']) "has_rst" = some 1 :=
  (has_rst_characterization ['5', '9', '9'] (by decide)).mpr ⟨0, by decide, by decide⟩

/-! ### Claim C6: persisted rows are newline-free -/

/-- Every character surviving `clean_text` differs from `'\n'` and `'\r'`. -/
theorem mem_clean_text_ne (s : List Char) (c : Char) (h : c ∈ clean_text s) :
    c ≠ '\n' ∧ c ≠ '\r' := by
  simp only [clean_text, List.map_map, List.mem_map, Function.comp] at h
  obtain ⟨a, _, rfl⟩ := h
  by_cases h1 : a = '\n' <;> by_cases h2 : a = '\r' <;> simp [h1, h2]

/-- Claim C6: every row persisted to the train/test tables has had `'\n'`
and `'\r'` replaced by spaces, so no persisted text contains a line-break
character. -/
theorem persist_rows_newline_free (rows : List (List Char × ℕ)) (r : List Char × ℕ)
    (hr : r ∈ persist_rows rows) : '\n' ∉ r.1 ∧ '\r' ∉ r.1 := by
  obtain ⟨s, _, rfl⟩ := List.mem_map.mp hr
  constructor
  · intro hmem
    exact (mem_clean_text_ne s.1 '\n' hmem).1 rfl
  · intro hmem
    exact (mem_clean_text_ne s.1 '\r' hmem).2 rfl

theorem persist_rows_newline_free_witness :
    '\n' ∉ ([' '] : List Char) ∧ '\r' ∉ ([' '] : List Char) :=
  persist_rows_newline_free [(['\n'], 1)] ([' '], 1) (by decide)

/-! ### Claim C7: the accuracy quality gate -/

/-- Claim C7: the entry point exits 0 exactly when the measured accuracy is
at least 0.95 and non-zero exactly when it is below 0.95; the accuracy value
itself is computed and returned either way (the in-`train()` gate only
warns). -/
theorem accuracy_gate_exit (accuracy : ℚ) :
    (run_main accuracy).1 = accuracy ∧
      ((run_main accuracy).2 = 0 ↔ 95 / 100 ≤ accuracy) ∧
      ((run_main accuracy).2 ≠ 0 ↔ accuracy < 95 / 100) ∧
      (quality_gate_warns accuracy = true ↔ accuracy < 95 / 100) := by
  refine ⟨rfl, ?_, ?_, ?_⟩
  · by_cases hq : 95 / 100 ≤ accuracy
    · simp [run_main, hq]
    · have hlt : accuracy < 95 / 100 := not_le.mp hq
      simp [run_main, hq]
  · by_cases hq : 95 / 100 ≤ accuracy
    · simp [run_main, hq, not_lt.mpr hq]
    · have hlt : accuracy < 95 / 100 := not_le.mp hq
      simp [run_main, hq, hlt]
  · simp [quality_gate_warns, decide_eq_true_iff]

theorem accuracy_gate_exit_witness :
    (run_main (9 / 10)).2 ≠ 0 ∧ (run_main (99 / 100)).2 = 0 :=
  ⟨(accuracy_gate_exit (9 / 10)).2.2.1.mpr (by norm_num),
    (accuracy_gate_exit (99 / 100)).2.1.mpr (by norm_num)⟩

/-! ### Claim C4: dataset size, composition, and split -/

/-- The generated sample list has exactly 100000 entries:
12000 + 12000 + 16000 + 10000 legitimate and 50000 garbage. -/
theorem mk_samples_length {α : Type} (rtty psk ft8 rattle garbage : ℕ → α) :
    (mk_samples rtty psk ft8 rattle garbage).length = 100000 := by
  simp [mk_samples]

/-- Claim C4: generation produces 100000 samples — 12000 RTTY, 12000 PSK31,
16000 FT8 and 10000 rattlegram with label 1, and 50000 garbage with label 0 —
shuffled once, then split in that shuffled order into exactly 80000 train and
20000 test rows with no re-shuffling (train ++ test is the shuffled list). -/
theorem generate_dataset_split {α : Type} (rtty psk ft8 rattle garbage : ℕ → α)
    (shuffle : List (α × ℕ) → List (α × ℕ))
    (hperm : List.Perm (shuffle (mk_samples rtty psk ft8 rattle garbage))
      (mk_samples rtty psk ft8 rattle garbage)) :
    (generate_dataset rtty psk ft8 rattle garbage shuffle).1.length = 80000 ∧
      (generate_dataset rtty psk ft8 rattle garbage shuffle).2.length = 20000 ∧
      (generate_dataset rtty psk ft8 rattle garbage shuffle).1 ++
          (generate_dataset rtty psk ft8 rattle garbage shuffle).2 =
        shuffle (mk_samples rtty psk ft8 rattle garbage) ∧
      (shuffle (mk_samples rtty psk ft8 rattle garbage)).countP (fun s => s.2 == 1) =
        50000 ∧
      (shuffle (mk_samples rtty psk ft8 rattle garbage)).countP (fun s => s.2 == 0) =
        50000 := by
  have hlen0 := mk_samples_length rtty psk ft8 rattle garbage
  have hslen : (shuffle (mk_samples rtty psk ft8 rattle garbage)).length = 100000 := by
    rw [hperm.length_eq, hlen0]
  refine ⟨?_, ?_, ?_, ?_, ?_⟩
  · simp [generate_dataset, hlen0, hslen]
  · simp [generate_dataset, hlen0, hslen]
  · simp [generate_dataset, List.take_append_drop]
  · rw [hperm.countP_eq]
    simp [mk_samples, List.countP_append, List.countP_map, Function.comp_def,
      List.countP_true, List.countP_false]
  · rw [hperm.countP_eq]
    simp [mk_samples, List.countP_append, List.countP_map, Function.comp_def,
      List.countP_true, List.countP_false]

theorem generate_dataset_split_witness :
    (generate_dataset (fun _ => 0) (fun _ => 0) (fun _ => 0) (fun _ => 0) (fun _ => 0)
      id).1.length = 80000 :=
  (@generate_dataset_split ℕ (fun _ => 0) (fun _ => 0) (fun _ => 0) (fun _ => 0)
    (fun _ => 0) id (List.Perm.refl _)).1

/-! ### Claim C3: bounds on the feature values -/

/-- Each character falls in at most one of the classes alphabetic / digit /
literal space, so the three counts together never exceed the length. -/
theorem count_classes_le (l : List Char) :
    l.countP pyIsAlpha + l.countP pyIsDigit + l.countP (fun c => c == ' ') ≤
      l.length := by
  induction l with
  | nil => simp
  | cons c rest ih =>
    simp only [List.countP_cons, List.length_cons]
    by_cases hA : pyIsAlpha c = true <;> by_cases hD : pyIsDigit c = true <;>
      by_cases hS : (c == ' ') = true
    · exfalso
      simp only [pyIsAlpha, pyIsDigit, Bool.or_eq_true, Bool.and_eq_true,
        decide_eq_true_eq] at hA hD
      omega
    · exfalso
      simp only [pyIsAlpha, pyIsDigit, Bool.or_eq_true, Bool.and_eq_true,
        decide_eq_true_eq] at hA hD
      omega
    · exfalso
      have hS' : c = ' ' := beq_iff_eq.mp hS
      subst hS'
      exact absurd hA (by decide)
    · simp only [hA, hD, hS, Bool.false_eq_true, if_true, if_false]
      omega
    · exfalso
      have hS' : c = ' ' := beq_iff_eq.mp hS
      subst hS'
      exact absurd hD (by decide)
    · simp only [hA, hD, hS, Bool.false_eq_true, if_true, if_false]
      omega
    · simp only [hA, hD, hS, Bool.false_eq_true, if_true, if_false]
      omega
    · simp only [hA, hD, hS, Bool.false_eq_true, if_true, if_false]
      omega

/-- Vowels of the uppercased text are no more numerous than the alphabetic
characters of the original text. -/
theorem vowel_le_alpha (l : List Char) :
    (l.map pyToUpper).countP isVowelChar ≤ l.countP pyIsAlpha := by
  rw [List.countP_map]
  apply List.countP_mono_left
  intro c _ hc
  by_cases hlow : (97 ≤ c.toNat && c.toNat ≤ 122) = true
  · simp only [Bool.and_eq_true, decide_eq_true_eq] at hlow
    simp only [pyIsAlpha, Bool.or_eq_true, Bool.and_eq_true, decide_eq_true_eq]
    omega
  · rw [Function.comp_apply, pyToUpper, if_neg hlow] at hc
    simp only [isVowelChar, Bool.or_eq_true, beq_iff_eq] at hc
    rcases hc with ((((rfl | rfl) | rfl) | rfl) | rfl) <;> decide

/-- Each frequency produced by `bump` is bounded by the old bound plus one. -/
theorem mem_bump_bound (m : List (Char × ℕ)) (c : Char) (B : ℕ)
    (hm : ∀ p ∈ m, p.2 ≤ B) : ∀ p ∈ bump m c, p.2 ≤ B + 1 := by
  induction m with
  | nil =>
    intro p hp
    simp only [bump, List.mem_singleton] at hp
    subst hp
    omega
  | cons q rest ih =>
    obtain ⟨c₀, n⟩ := q
    intro p hp
    rw [bump] at hp
    by_cases he : c₀ = c
    · rw [if_pos he] at hp
      rcases List.mem_cons.mp hp with rfl | hmem
      · have := hm (c₀, n) (by simp)
        simp only at this ⊢
        omega
      · exact le_trans (hm p (List.mem_cons_of_mem _ hmem)) (Nat.le_succ _)
    · rw [if_neg he] at hp
      rcases List.mem_cons.mp hp with rfl | hmem
      · exact le_trans (hm _ (by simp)) (Nat.le_succ _)
      · exact ih (fun q hq => hm q (List.mem_cons_of_mem _ hq)) p hmem

/-- Folding `bump` over `l` raises any frequency bound by at most `l.length`. -/
theorem foldl_bump_bound :
    ∀ (l : List Char) (acc : List (Char × ℕ)) (B : ℕ),
      (∀ p ∈ acc, p.2 ≤ B) → ∀ p ∈ l.foldl bump acc, p.2 ≤ B + l.length := by
  intro l
  induction l with
  | nil =>
    intro acc B h p hp
    simpa using h p hp
  | cons c rest ih =>
    intro acc B h p hp
    rw [List.foldl_cons] at hp
    have hb := ih (bump acc c) (B + 1) (mem_bump_bound acc c B h) p hp
    simp only [List.length_cons]
    omega

/-- Every character frequency is at most the text length. -/
theorem charCounts_le_length (l : List Char) : ∀ p ∈ charCounts l, p.2 ≤ l.length := by
  intro p hp
  have := foldl_bump_bound l [] 0 (by simp) p hp
  simpa using this

theorem list_sum_nonpos {l : List ℝ} (h : ∀ x ∈ l, x ≤ 0) : l.sum ≤ 0 := by
  induction l with
  | nil => simp
  | cons x rest ih =>
    rw [List.sum_cons]
    exact add_nonpos (h x (by simp)) (ih fun y hy => h y (List.mem_cons_of_mem _ hy))

/-- The Shannon entropy of any text is non-negative: every probability is in
`(0, 1]`, so every term `p·log2(p)` is non-positive. -/
theorem shannon_entropy_nonneg (l : List Char) : 0 ≤ shannon_entropy l := by
  unfold shannon_entropy
  split
  · exact le_refl 0
  · rename_i h0
    rw [neg_nonneg]
    apply list_sum_nonpos
    intro x hx
    obtain ⟨kc, hkc, rfl⟩ := List.mem_map.mp hx
    dsimp only
    split
    · rename_i hp
      have hlen : 0 < (l.length : ℝ) := by
        have : 0 < l.length := Nat.pos_of_ne_zero h0
        exact_mod_cast this
      have hle : (kc.2 : ℝ) / (l.length : ℝ) ≤ 1 := by
        rw [div_le_one hlen]
        exact_mod_cast charCounts_le_length l kc hkc
      have hlog : Real.logb 2 ((kc.2 : ℝ) / (l.length : ℝ)) ≤ 0 :=
        Real.logb_nonpos (by norm_num) (le_of_lt hp) hle
      exact mul_nonpos_iff.mpr (Or.inl ⟨le_of_lt hp, hlog⟩)
    · exact le_refl 0

/-- A key of the dynamic n-gram families: `bi_...` or `tri_...`. -/
def isNgramKey (k : String) : Prop :=
  k.data.take 3 = ['b', 'i', '_'] ∨ k.data.take 4 = ['t', 'r', 'i', '_']

instance (k : String) : Decidable (isNgramKey k) :=
  inferInstanceAs
    (Decidable (k.data.take 3 = ['b', 'i', '_'] ∨ k.data.take 4 = ['t', 'r', 'i', '_']))

/-- All n-gram-keyed values of the map are casts of natural numbers. -/
def intValued (m : List (String × ℝ)) : Prop :=
  ∀ k v, dget m k = some v → isNgramKey k → ∃ n : ℕ, v = (n : ℝ)

theorem intValued_nil : intValued [] := by
  intro k v h
  simp [dget] at h

theorem intValued_dset (m : List (String × ℝ)) (k₀ : String) (v₀ : ℝ)
    (hm : intValued m) (h : isNgramKey k₀ → ∃ n : ℕ, v₀ = (n : ℝ)) :
    intValued (dset m k₀ v₀) := by
  intro k v hk hng
  rw [dget_dset] at hk
  by_cases he : k₀ = k
  · rw [if_pos he] at hk
    subst he
    exact Option.some.inj hk ▸ h hng
  · rw [if_neg he] at hk
    exact hm k v hk hng

theorem intValued_dset_notNg (k₀ : String) (h : ¬ isNgramKey k₀)
    (m : List (String × ℝ)) (v₀ : ℝ) (hm : intValued m) :
    intValued (dset m k₀ v₀) :=
  intValued_dset m k₀ v₀ hm fun hng => absurd hng h

theorem dgetD_intValued (m : List (String × ℝ)) (hm : intValued m) (k : String)
    (hk : isNgramKey k) : ∃ n : ℕ, dgetD m k 0 = (n : ℝ) := by
  unfold dgetD
  cases hv : dget m k with
  | none => exact ⟨0, by simp⟩
  | some v =>
    obtain ⟨n, hn⟩ := hm k v hv hk
    exact ⟨n, by simp [hn]⟩

theorem intValued_foldl {β : Type} (f : List (String × ℝ) → β → List (String × ℝ))
    (l : List β) (m : List (String × ℝ)) (hm : intValued m)
    (hstep : ∀ acc b, intValued acc → intValued (f acc b)) :
    intValued (l.foldl f m) := by
  induction l generalizing m with
  | nil => exact hm
  | cons b rest ih => exact ih (f m b) (hstep m b hm)

theorem intValued_addBigrams (u : List Char) (m : List (String × ℝ))
    (hm : intValued m) : intValued (addBigrams u m) := by
  unfold addBigrams
  apply intValued_foldl _ _ _ hm
  intro acc i hacc
  dsimp only
  split
  · apply intValued_dset _ _ _ hacc
    intro _
    obtain ⟨n, hn⟩ := dgetD_intValued acc hacc (biKey ((u.drop i).take 2))
      (Or.inl (by rw [biKey_data]; rfl))
    exact ⟨n + 1, by rw [hn]; push_cast; ring⟩
  · exact hacc

theorem intValued_addTrigrams (u : List Char) (m : List (String × ℝ))
    (hm : intValued m) : intValued (addTrigrams u m) := by
  unfold addTrigrams
  apply intValued_foldl _ _ _ hm
  intro acc i hacc
  dsimp only
  split
  · apply intValued_dset _ _ _ hacc
    intro _
    obtain ⟨n, hn⟩ := dgetD_intValued acc hacc (triKey ((u.drop i).take 3))
      (Or.inr (by rw [triKey_data]; rfl))
    exact ⟨n + 1, by rw [hn]; push_cast; ring⟩
  · exact hacc

/-- All `bi_`/`tri_` values of any extracted FeatureMap are natural numbers. -/
theorem intValued_extract (l : List Char) : intValued (extract_features l) := by
  simp only [extract_features]
  split
  · apply intValued_dset_notNg _ (by decide)
    apply intValued_dset_notNg _ (by decide)
    apply intValued_dset_notNg _ (by decide)
    apply intValued_dset_notNg _ (by decide)
    apply intValued_dset_notNg _ (by decide)
    apply intValued_dset_notNg _ (by decide)
    apply intValued_dset_notNg _ (by decide)
    exact intValued_nil
  · apply intValued_dset_notNg _ (by decide)
    apply intValued_dset_notNg _ (by decide)
    apply intValued_dset_notNg _ (by decide)
    apply intValued_dset_notNg _ (by decide)
    apply intValued_dset_notNg _ (by decide)
    apply intValued_dset_notNg _ (by decide)
    apply intValued_dset_notNg _ (by decide)
    apply intValued_dset_notNg _ (by decide)
    split <;> apply intValued_dset_notNg _ (by decide)
    all_goals apply intValued_dset_notNg _ (by decide)
    all_goals split
    all_goals apply intValued_dset_notNg _ (by decide)
    all_goals apply intValued_dset_notNg _ (by decide)
    all_goals apply intValued_dset_notNg _ (by decide)
    all_goals apply intValued_addTrigrams
    all_goals apply intValued_addBigrams
    all_goals apply intValued_dset_notNg _ (by decide)
    all_goals apply intValued_dset_notNg _ (by decide)
    all_goals apply intValued_dset_notNg _ (by decide)
    all_goals apply intValued_dset_notNg _ (by decide)
    all_goals apply intValued_dset_notNg _ (by decide)
    all_goals apply intValued_dset_notNg _ (by decide)
    all_goals apply intValued_dset_notNg _ (by decide)
    all_goals exact intValued_nil

theorem div_nat_bounds (a b : ℕ) (hb : 0 < b) (hab : a ≤ b) :
    0 ≤ (a : ℝ) / (b : ℝ) ∧ (a : ℝ) / (b : ℝ) ≤ 1 := by
  constructor
  · positivity
  · rw [div_le_one (by exact_mod_cast hb)]
    exact_mod_cast hab

theorem min_one_bounds (x : ℝ) (hx : 0 ≤ x) : 0 ≤ min x 1 ∧ min x 1 ≤ 1 :=
  ⟨le_min hx zero_le_one, min_le_right _ _⟩

/-- Claim C3 (amended): for every string, each ratio-type feature — `len`,
`alpha_ratio`, `digit_ratio`, `space_ratio`, `upper_ratio`, `special_ratio`,
`max_word_len`, `avg_word_len`, `word_count`, `vowel_ratio`,
`repeated_pair_ratio` — lies in `[0, 1]`, and every `bi_`/`tri_` occurrence
count is a non-negative integer; the `entropy` feature is non-negative but,
being divided by 8 without clipping, is not bounded by 1 in general. -/
theorem extract_features_bounds (l : List Char) :
    (∀ k ∈ (["len", "alpha_ratio", "digit_ratio", "space_ratio", "upper_ratio",
        "special_ratio", "max_word_len", "avg_word_len", "word_count",
        "vowel_ratio", "repeated_pair_ratio"] : List String),
      0 ≤ dgetD (extract_features l) k 0 ∧ dgetD (extract_features l) k 0 ≤ 1) ∧
    0 ≤ dgetD (extract_features l) "entropy" 0 ∧
    (∀ k : String, isNgramKey k → ∃ n : ℕ, dgetD (extract_features l) k 0 = (n : ℝ)) := by
  by_cases h : l = []
  · subst h
    refine ⟨?_, ?_, ?_⟩
    · intro k hk
      fin_cases hk <;>
        simp [extract_features_nil, dgetD, dget, String.reduceEq, reduceIte]
    · simp [extract_features_nil, dgetD, dget, String.reduceEq, reduceIte]
    · intro k hk
      exact dgetD_intValued _ (intValued_extract []) k hk
  · have hlen : 0 < l.length := List.length_pos.mpr h
    have hlenR : 0 < (l.length : ℝ) := by exact_mod_cast hlen
    refine ⟨?_, ?_, ?_⟩
    · intro k hk
      fin_cases hk
      · rw [dgetD, dget_extract_len l h, Option.getD_some]
        exact min_one_bounds _ (by positivity)
      · rw [dgetD, dget_extract_alpha l h, Option.getD_some]
        exact div_nat_bounds _ _ hlen (List.countP_le_length _)
      · rw [dgetD, dget_extract_digit l h, Option.getD_some]
        exact div_nat_bounds _ _ hlen (List.countP_le_length _)
      · rw [dgetD, dget_extract_space l h, Option.getD_some]
        exact div_nat_bounds _ _ hlen (List.countP_le_length _)
      · rw [dgetD, dget_extract_upper l h, Option.getD_some]
        split
        · exact div_nat_bounds _ _ hlen (List.countP_le_length _)
        · norm_num
      · rw [dgetD, dget_extract_special l h, Option.getD_some]
        have hc := count_classes_le l
        have ha : (0 : ℝ) ≤ (l.countP pyIsAlpha : ℝ) := by positivity
        have hd : (0 : ℝ) ≤ (l.countP pyIsDigit : ℝ) := by positivity
        have hs : (0 : ℝ) ≤ (l.countP (fun c => c == ' ') : ℝ) := by positivity
        have hcR : (l.countP pyIsAlpha : ℝ) + (l.countP pyIsDigit : ℝ) +
            (l.countP (fun c => c == ' ') : ℝ) ≤ (l.length : ℝ) := by
          exact_mod_cast hc
        constructor
        · apply div_nonneg _ (le_of_lt hlenR)
          push_cast
          linarith
        · rw [div_le_one hlenR]
          push_cast
          linarith
      · rw [dgetD, dget_extract_max_word l h]
        split
        · rw [Option.getD_some]
          exact min_one_bounds _ (by positivity)
        · rw [Option.getD_some]
          exact min_one_bounds _ (by positivity)
      · rw [dgetD, dget_extract_avg_word l h]
        split
        · rw [Option.getD_some]
          exact min_one_bounds _ (by positivity)
        · rw [Option.getD_some]
          exact min_one_bounds _ (by positivity)
      · rw [dgetD, dget_extract_word_count l h]
        split
        · rw [Option.getD_some]
          norm_num
        · rw [Option.getD_some]
          exact min_one_bounds _ (by positivity)
      · rw [dgetD, dget_extract_vowel l h, Option.getD_some]
        split
        · rename_i ha
          exact div_nat_bounds _ _ ha (vowel_le_alpha l)
        · norm_num
      · rw [dgetD, dget_extract_repeated l h]
        split
        · rename_i h2
          rw [Option.getD_some]
          have hz : (l.zip l.tail).countP (fun p => p.1 == p.2) ≤ l.length - 1 := by
            have hle := List.countP_le_length (fun p : Char × Char => p.1 == p.2)
              (l := l.zip l.tail)
            rw [List.length_zip l l.tail, List.length_tail] at hle
            omega
          have h1R : (1 : ℝ) < (l.length : ℝ) := by exact_mod_cast h2
          constructor
          · apply div_nonneg (by positivity)
            linarith
          · rw [div_le_one (by linarith)]
            have hcast : ((l.zip l.tail).countP (fun p => p.1 == p.2) : ℝ) ≤
                ((l.length - 1 : ℕ) : ℝ) := by exact_mod_cast hz
            rw [Nat.cast_sub (by omega)] at hcast
            simpa using hcast
        · rw [Option.getD_some]
          norm_num
    · rw [dgetD, dget_extract_entropy l h, Option.getD_some]
      exact div_nonneg (shannon_entropy_nonneg l) (by norm_num)
    · intro k hk
      exact dgetD_intValued _ (intValued_extract l) k hk

theorem extract_features_bounds_witness :
    (0 ≤ dgetD (extract_features ['C', 'Q']) "len" 0 ∧
      dgetD (extract_features ['C', 'Q']) "len" 0 ≤ 1) ∧
    (∃ n : ℕ, dgetD (extract_features ['C', 'Q']) "bi_CQ" 0 = (n : ℝ)) :=
  ⟨(extract_features_bounds ['C', 'Q']).1 "len" (by simp),
    (extract_features_bounds ['C', 'Q']).2.2 "bi_CQ" (Or.inl (by decide))⟩

/-! ### Counterexample to the `[0,1]` entropy bound: a text of 257 distinct
characters, each occurring once, has Shannon entropy `log2(257) > 8` bits, so
`entropy` (divided by 8, not clipped) exceeds 1 there. -/

theorem bump_of_not_mem (m : List (Char × ℕ)) (c : Char) (h : ∀ p ∈ m, p.1 ≠ c) :
    bump m c = m ++ [(c, 1)] := by
  induction m with
  | nil => rfl
  | cons q rest ih =>
    obtain ⟨c₀, n⟩ := q
    rw [bump, if_neg (h (c₀, n) (by simp)), List.cons_append,
      ih fun p hp => h p (List.mem_cons_of_mem _ hp)]

theorem foldl_bump_nodup :
    ∀ (l : List Char) (acc : List (Char × ℕ)),
      l.Nodup → (∀ p ∈ acc, p.1 ∉ l) →
      l.foldl bump acc = acc ++ l.map fun c => (c, 1) := by
  intro l
  induction l with
  | nil =>
    intro acc _ _
    simp
  | cons c rest ih =>
    intro acc hnd hdis
    rw [List.foldl_cons,
      bump_of_not_mem acc c fun p hp e => hdis p hp (e ▸ List.mem_cons_self c rest)]
    rw [ih (acc ++ [(c, 1)]) (List.Nodup.of_cons hnd) ?_]
    · simp
    · intro p hp
      rcases List.mem_append.mp hp with hmem | hmem
      · exact fun hr => hdis p hmem (List.mem_cons_of_mem _ hr)
      · simp only [List.mem_singleton] at hmem
        subst hmem
        exact (List.nodup_cons.mp hnd).1

theorem charCounts_nodup (l : List Char) (h : l.Nodup) :
    charCounts l = l.map fun c => (c, 1) := by
  have := foldl_bump_nodup l [] h (by simp)
  simpa [charCounts] using this

/-- 257 distinct characters: code points 0 through 256. -/
def manyDistinctChars : List Char := (List.range 257).map Char.ofNat

set_option maxRecDepth 4000 in
theorem manyDistinctChars_nodup : manyDistinctChars.Nodup := by decide

theorem shannon_entropy_manyDistinct :
    shannon_entropy manyDistinctChars = Real.logb 2 257 := by
  have hlen : manyDistinctChars.length = 257 := by simp [manyDistinctChars]
  unfold shannon_entropy
  rw [if_neg (by rw [hlen]; norm_num), charCounts_nodup _ manyDistinctChars_nodup,
    List.map_map, hlen]
  rw [show ((fun kc : Char × ℕ =>
      let p : ℝ := (kc.2 : ℝ) / ((257 : ℕ) : ℝ)
      if 0 < p then p * Real.logb 2 p else 0) ∘ fun c : Char => (c, 1)) =
      fun _ : Char => ((1 : ℝ) / 257) * Real.logb 2 ((1 : ℝ) / 257) from
    funext fun c => by norm_num]
  rw [List.map_const', List.sum_replicate, hlen]
  simp only [nsmul_eq_mul]
  rw [one_div, Real.logb_inv]
  push_cast
  ring_nf

/-- Counterexample to claim C3 as stated: on a string of 257 distinct
characters, each occurring once, the `entropy` feature value is
`log2(257)/8 > 1`, outside `[0,1]`.  The ratio features do stay in `[0,1]`;
only the entropy bound fails. -/
theorem entropy_exceeds_one :
    1 < dgetD (extract_features manyDistinctChars) "entropy" 0 := by
  have hlen : manyDistinctChars.length = 257 := by simp [manyDistinctChars]
  have hne : manyDistinctChars ≠ [] :=
    List.length_pos.mp (by rw [hlen]; norm_num)
  rw [dgetD, dget_extract_entropy _ hne, Option.getD_some, shannon_entropy_manyDistinct]
  have h256 : Real.logb 2 256 = 8 := by
    rw [show (256 : ℝ) = 2 ^ (8 : ℕ) by norm_num, Real.logb_pow,
      Real.logb_self_eq_one (by norm_num)]
    norm_num
  have hmono : Real.logb 2 256 < Real.logb 2 257 :=
    Real.logb_lt_logb (by norm_num) (by norm_num) (by norm_num)
  rw [lt_div_iff₀ (by norm_num : (0 : ℝ) < 8)]
  linarith
